import Mathlib

/-!
# Shallow embedding of the suggestion lifecycle engine

This file embeds the suggestion-lifecycle core of the writing-assistant
store (`src/store/useStore.ts`): the suggestion data model, the range
invalidation engine, the suggestion merge steps of the three checkers,
and the apply/undo engine, together with theorems checking the spec's
testable properties against these definitions.

Conventions of the embedding:
* text buffers and all human-readable text fields are `List Char`
  (one element per code unit of the source's strings);
* JavaScript numbers used as character indices are `Int` (the source
  explicitly guards against negative positions);
* the asynchronous external collaborators (the spell / grammar / clarity
  checker services, and the remote persistence service) are out of scope:
  the store functions that consume their results are embedded as functions
  taking those results as arguments, and the fire-and-forget re-check /
  remote-save calls at the tail of store actions have no effect on the
  store state embedded here;
* `Date.now()` is an explicit `now : Nat` argument;
* `console.log` / `console.warn` / `console.error` reporting is represented
  by explicit outcome values (`ApplyOutcome`, `UndoOutcome`); no branch of
  the source throws.
-/

/-- The closed `kind` tag of a suggestion: `'grammar' | 'spelling' | 'clarity'`. -/
inductive SuggestionType where
  | grammar
  | spelling
  | clarity
deriving DecidableEq, Repr

/-- The `source` tag of a suggestion:
`'local' | 'window' | 'sentence' | 'paragraph' | 'document'`. -/
inductive SuggestionSource where
  | «local»
  | window
  | sentence
  | paragraph
  | document
deriving DecidableEq, Repr

/-- A half-open character interval `{ start: number; end: number }`. -/
structure Pos where
  start : Int
  «end» : Int
deriving DecidableEq, Repr

/-- The `Suggestion` interface of `useStore.ts`. -/
structure Suggestion where
  id : String
  type : SuggestionType
  original : List Char
  suggestion : List Char
  explanation : List Char
  source : SuggestionSource
  priority : ℚ
  position : Pos
  confidence : ℚ
deriving DecidableEq, Repr

/-- The local `Draft` interface (timestamps omitted: `createdAt`/`updatedAt`
are `Date` values never read by the suggestion engine). -/
structure Draft where
  id : String
  title : String
  content : List Char
  isLocal : Bool
deriving DecidableEq, Repr

/-- The `UndoState` interface of `useStore.ts`. -/
structure UndoState where
  draftId : String
  previousContent : List Char
  appliedSuggestion : Suggestion
  previousSuggestions : List Suggestion
  timestamp : Nat
deriving DecidableEq, Repr

/-- The slice of the zustand store state that the suggestion lifecycle
engine reads and writes (loading flags and sent messages are carried by
operations that never interact with the claims and are omitted). -/
structure AppState where
  grammarSuggestions : List Suggestion
  hoveredSuggestionId : Option String
  undoStack : List UndoState
  cursorPosition : Option Int
  drafts : List Draft
  activeDraftId : Option String
  activeSentId : Option String
deriving DecidableEq, Repr

/-- `validateSuggestion`: position bounds check, then
`currentText.slice(start, end) === suggestion.original`. -/
def validateSuggestion (s : Suggestion) (currentText : List Char) : Bool :=
  let start := s.position.start
  let e := s.position.«end»
  if start < 0 ∨ (currentText.length : Int) < e ∨ e ≤ start then
    false
  else
    -- in-bounds `slice(start, end)`: the characters of `[start, end)`
    let textAtPosition := (currentText.drop start.toNat).take (e - start).toNat
    textAtPosition == s.original

/-- ECMAScript `String.prototype.slice` index resolution: a negative index
counts from the end, then the index is clamped into `[0, len]`. -/
def jsSliceIndex (len : Nat) (i : Int) : Nat :=
  if i < 0 then (max ((len : Int) + i) 0).toNat else min i.toNat len

/-- ECMAScript `String.prototype.slice l a b`: the characters between the
resolved indices (empty when the resolved start is not below the end). -/
def jsSlice (l : List Char) (a b : Int) : List Char :=
  (l.take (jsSliceIndex l.length b)).drop (jsSliceIndex l.length a)

/-- The effect of `updateDraft(id, title, content)` on the drafts list:
the matching draft gets the given title and content.  (Both the local and
the persisted branch of the source store exactly these values; the remote
`DraftsService` round-trip and `persistDraft`'s best-effort auto-persist
are external persistence, out of scope per the spec.) -/
def updateDraft (drafts : List Draft) (id : String) (title : String)
    (content : List Char) : List Draft :=
  drafts.map fun d => if d.id = id then { d with title := title, content := content } else d

/-- `[undoState, ..._state.undoStack].slice(0, 10)` — push an undo record,
keeping only the last 10 operations. -/
def pushUndo (u : UndoState) (stack : List UndoState) : List UndoState :=
  (u :: stack).take 10

/-- Which branch of `applySuggestion` ran: the two `console.error` early
returns report a missing suggestion/draft, the `console.warn` branch
reports a stale suggestion, otherwise the suggestion was applied. -/
inductive ApplyOutcome where
  | notFound
  | stale
  | applied
deriving DecidableEq, Repr

/-- The per-suggestion rebase step inside `applySuggestion`'s
`updatedSuggestions` computation: shift suggestions entirely after the
edit by `lengthDiff`, drop suggestions overlapping the edited span,
keep the rest unchanged. -/
def rebaseAfterApply (start e lengthDiff : Int) (s : Suggestion) : Option Suggestion :=
  if s.position.start ≥ e then
    some { s with position := { start := s.position.start + lengthDiff,
                                «end» := s.position.«end» + lengthDiff } }
  else if s.position.«end» > start ∧ s.position.start < e then
    none
  else
    some s

/-- `applySuggestion(suggestionId)`: look up the suggestion and the active
draft, re-validate, splice the replacement into the buffer, rebase the
remaining suggestions, push an undo record, and set the cursor hint.
The trailing fire-and-forget `checkSpelling(newContent)` re-check is an
external async call and not part of this state transition. -/
def applySuggestion (st : AppState) (suggestionId : String) (now : Nat) :
    AppState × ApplyOutcome :=
  match st.grammarSuggestions.find? (fun s => s.id == suggestionId), st.activeDraftId with
  | some suggestionToApply, some draftId =>
    match st.drafts.find? (fun d => d.id == draftId) with
    | none => (st, ApplyOutcome.notFound)
    | some activeDraft =>
      if validateSuggestion suggestionToApply activeDraft.content then
        let start := suggestionToApply.position.start
        let e := suggestionToApply.position.«end»
        let originalText := activeDraft.content
        let newContent :=
          originalText.take start.toNat ++ suggestionToApply.suggestion
            ++ originalText.drop e.toNat
        let lengthDiff : Int := (suggestionToApply.suggestion.length : Int) - (e - start)
        let updatedSuggestions :=
          (st.grammarSuggestions.filter (fun s => s.id != suggestionId)).filterMap
            (rebaseAfterApply start e lengthDiff)
        let undoState : UndoState :=
          { draftId := draftId
            previousContent := originalText
            appliedSuggestion := suggestionToApply
            previousSuggestions := st.grammarSuggestions
            timestamp := now }
        let newCursorPosition := start + (suggestionToApply.suggestion.length : Int)
        ({ st with
            drafts := updateDraft st.drafts draftId activeDraft.title newContent
            grammarSuggestions := updatedSuggestions
            undoStack := pushUndo undoState st.undoStack
            cursorPosition := some newCursorPosition }, ApplyOutcome.applied)
      else
        -- stale: drop the invalid suggestion, leave everything else alone
        ({ st with
            grammarSuggestions := st.grammarSuggestions.filter (fun s => s.id != suggestionId) },
          ApplyOutcome.stale)
  | _, _ => (st, ApplyOutcome.notFound)

/-- `canUndo`: `undoStack.length > 0 && undoStack[0].draftId === activeDraftId`
(`activeDraftId` may be `null`, in which case the strict equality is false). -/
def canUndo (st : AppState) : Bool :=
  match st.undoStack with
  | [] => false
  | top :: _ =>
    match st.activeDraftId with
    | some id => top.draftId == id
    | none => false

/-- Which branch of `undoLastSuggestion` ran. -/
inductive UndoOutcome where
  | noActiveOrEmpty
  | wrongDocument
  | undone
deriving DecidableEq, Repr

/-- `undoLastSuggestion`: no-op when there is no active draft, the stack is
empty, or the top record belongs to another draft; otherwise restore the
captured content and suggestion set and pop the record.  The restored
title is `currentDraft?.title || "Untitled document"` (JavaScript `||`:
an absent draft or an empty title falls back to the default). -/
def undoLastSuggestion (st : AppState) : AppState × UndoOutcome :=
  match st.activeDraftId, st.undoStack with
  | none, _ => (st, UndoOutcome.noActiveOrEmpty)
  | some _, [] => (st, UndoOutcome.noActiveOrEmpty)
  | some activeDraftId, lastUndo :: rest =>
    if lastUndo.draftId ≠ activeDraftId then
      (st, UndoOutcome.wrongDocument)
    else
      let currentTitle :=
        match st.drafts.find? (fun d => d.id == activeDraftId) with
        | some d => if d.title = "" then "Untitled document" else d.title
        | none => "Untitled document"
      ({ st with
          drafts := updateDraft st.drafts activeDraftId currentTitle lastUndo.previousContent
          grammarSuggestions := lastUndo.previousSuggestions
          undoStack := rest }, UndoOutcome.undone)

/-- The forward scan of `invalidateSuggestionsOnEdit`: advance `changeStart`
while both texts have a character there and the characters agree. -/
def commonPrefixLen : List Char → List Char → Nat
  | a :: as, b :: bs => if a = b then commonPrefixLen as bs + 1 else 0
  | _, _ => 0

/-- The backward scan of `invalidateSuggestionsOnEdit`: starting from
`oldEnd = oldText.length - 1` and `newEnd = newText.length - 1`, decrement
both while `oldEnd >= changeStart && newEnd >= changeStart` and the
characters agree, then return `changeEnd = oldEnd + 1`.  The two `Nat`
arguments are `oldEnd + 1` and `newEnd + 1`, so that `0` encodes the
index `-1`. -/
def backwardScanEnd (oldText newText : List Char) (changeStart : Nat) :
    Nat → Nat → Nat
  | oldEnd + 1, newEnd + 1 =>
    if changeStart ≤ oldEnd ∧ changeStart ≤ newEnd ∧
        oldText.getD oldEnd ' ' = newText.getD newEnd ' ' then
      backwardScanEnd oldText newText changeStart oldEnd newEnd
    else
      oldEnd + 1
  | oldEnd1, _ => oldEnd1

/-- `invalidateSuggestionsOnEdit(oldText, newText)`: compute the changed
span `[changeStart, changeEnd)` over `oldText` by the forward/backward
common-match scans, drop every suggestion overlapping it
(`overlaps = !(end <= changeStart || start >= changeEnd)`), and update
the state only when something was dropped. -/
def invalidateSuggestionsOnEdit (st : AppState) (oldText newText : List Char) : AppState :=
  if st.grammarSuggestions = [] then st
  else
    let changeStart := commonPrefixLen oldText newText
    let changeEnd := backwardScanEnd oldText newText changeStart oldText.length newText.length
    let validSuggestions := st.grammarSuggestions.filter fun s =>
      let overlaps := !(s.position.«end» ≤ (changeStart : Int)
        ∨ s.position.start ≥ (changeEnd : Int) : Bool)
      !overlaps
    if validSuggestions.length = st.grammarSuggestions.length then st
    else { st with grammarSuggestions := validSuggestions }

/-- The `GrammarCheckResult` interface: the local grammar checker tags each
result `'grammar' | 'clarity'`. -/
inductive GrammarResultType where
  | grammar
  | clarity
deriving DecidableEq, Repr

/-- Inclusion of the grammar checker's result tag into the suggestion kind. -/
def GrammarResultType.toSuggestionType : GrammarResultType → SuggestionType
  | .grammar => SuggestionType.grammar
  | .clarity => SuggestionType.clarity

/-- `GrammarCheckResult` from `grammarChecker.ts`. -/
structure GrammarCheckResult where
  type : GrammarResultType
  original : List Char
  suggestion : List Char
  explanation : List Char
  position : Pos
deriving DecidableEq, Repr

/-- The `grammarResults.map((result, index) => …)` step of `checkGrammar`:
build `Suggestion` values from the checker's results. -/
def mkGrammarSuggestions (grammarResults : List GrammarCheckResult) (now : Nat) :
    List Suggestion :=
  grammarResults.enum.map fun p =>
    { id := "grammar_" ++ toString now ++ "_" ++ toString p.1
      type := p.2.type.toSuggestionType
      original := p.2.original
      suggestion := p.2.suggestion
      explanation := p.2.explanation
      source := SuggestionSource.«local»
      priority := if p.2.type = GrammarResultType.grammar then 2 else 3
      position := p.2.position
      confidence := (4 : ℚ) / 5 }

/-- `checkGrammar(text)` after the external checker returned
`grammarResults`: replace the grammar/clarity suggestions with the new
batch, keeping only suggestions with `source === "local" && type === "spelling"`. -/
def checkGrammar (st : AppState) (grammarResults : List GrammarCheckResult)
    (now : Nat) : AppState :=
  let grammarSuggestions := mkGrammarSuggestions grammarResults now
  { st with
      grammarSuggestions :=
        st.grammarSuggestions.filter
          (fun s => s.source == SuggestionSource.«local»
            && s.type == SuggestionType.spelling)
        ++ grammarSuggestions }

/-- `SpellCheckError` from `spellChecker.ts`. -/
structure SpellCheckError where
  word : List Char
  suggestions : List (List Char)
  position : Pos
deriving DecidableEq, Repr

/-- The `errors.map((error, index) => …)` step of `addSpellingSuggestions`. -/
def mkSpellingSuggestions (errors : List SpellCheckError) (now : Nat) :
    List Suggestion :=
  errors.enum.map fun p =>
    let hasRealSuggestions :=
      decide (0 < p.2.suggestions.length)
        && !(p.2.suggestions.contains "(no suggestions)".toList)
    { id := "spell_" ++ toString now ++ "_" ++ toString p.1
      type := SuggestionType.spelling
      original := p.2.word
      suggestion := if hasRealSuggestions then p.2.suggestions.headD [] else p.2.word
      explanation :=
        if hasRealSuggestions then
          "Misspelled word: \"".toList ++ p.2.word ++ "\"".toList
            ++ (if 1 < p.2.suggestions.length then
                  " (".toList ++ (toString p.2.suggestions.length).toList
                    ++ " suggestions)".toList
                else [])
        else
          "Potential misspelling: \"".toList ++ p.2.word ++ "\"".toList
      source := SuggestionSource.«local»
      priority := if hasRealSuggestions then 1 else (1 : ℚ) / 2
      position := p.2.position
      confidence := if hasRealSuggestions then (9 : ℚ) / 10 else (3 : ℚ) / 10 }

/-- `addSpellingSuggestions(errors)`: remove the old spelling suggestions
(`filter (s.type !== "spelling")`) and append the new batch. -/
def addSpellingSuggestions (st : AppState) (errors : List SpellCheckError)
    (now : Nat) : AppState :=
  let spellingSuggestions := mkSpellingSuggestions errors now
  { st with
      grammarSuggestions :=
        st.grammarSuggestions.filter (fun s => s.type != SuggestionType.spelling)
          ++ spellingSuggestions }

/-- `ClarityCheckResult` from `clarityChecker.ts` (its `type` field is the
constant `'clarity'`). -/
structure ClarityCheckResult where
  original : List Char
  suggestion : List Char
  explanation : List Char
  position : Pos
  confidence : ℚ
deriving DecidableEq, Repr

/-- The `results.map((result, index) => …)` step of `addClaritySuggestions`. -/
def mkClaritySuggestions (results : List ClarityCheckResult) (now : Nat) :
    List Suggestion :=
  results.enum.map fun p =>
    { id := "clarity_" ++ toString now ++ "_" ++ toString p.1
      type := SuggestionType.clarity
      original := p.2.original
      suggestion := p.2.suggestion
      explanation := p.2.explanation
      source := SuggestionSource.«local»
      priority := 3
      position := p.2.position
      confidence := p.2.confidence }

/-- `addClaritySuggestions(results)`: append the new clarity batch
(previous clarity suggestions were already cleared by `checkClarity`). -/
def addClaritySuggestions (st : AppState) (results : List ClarityCheckResult)
    (now : Nat) : AppState :=
  { st with
      grammarSuggestions := st.grammarSuggestions ++ mkClaritySuggestions results now }

/-- The clarity-clearing step `checkClarity` performs before invoking the
checker: `filter (s.type !== "clarity")`. -/
def clearClaritySuggestions (st : AppState) : AppState :=
  { st with
      grammarSuggestions :=
        st.grammarSuggestions.filter (fun s => s.type != SuggestionType.clarity) }

/-- `setActiveDraft(id)`: switch the active draft, clear the active sent
message and the hover state, and drop only the clarity suggestions. -/
def setActiveDraft (st : AppState) (id : String) : AppState :=
  { st with
      activeDraftId := some id
      activeSentId := none
      grammarSuggestions :=
        st.grammarSuggestions.filter (fun s => s.type != SuggestionType.clarity)
      hoveredSuggestionId := none }

/-- `setActiveSent(id)`: switch to a sent message and clear the entire
suggestion set and the hover state. -/
def setActiveSent (st : AppState) (id : String) : AppState :=
  { st with
      activeSentId := some id
      grammarSuggestions := []
      hoveredSuggestionId := none }

/-! ## Concrete states used by witnesses and counterexamples -/

/-- A minimal suggestion used as filler in concrete witness states. -/
def dummySugg : Suggestion :=
  { id := "dummy", type := SuggestionType.grammar, original := [],
    suggestion := [], explanation := [], source := SuggestionSource.«local»,
    priority := 1, position := { start := 0, «end» := 0 }, confidence := 1 }

/-- The spec's scenario suggestion `{original: "Teh", replacement: "The", range: [0,3)}`. -/
def tehSugg : Suggestion :=
  { id := "s1", type := SuggestionType.spelling, original := "Teh".toList,
    suggestion := "The".toList, explanation := [], source := SuggestionSource.«local»,
    priority := 1, position := { start := 0, «end» := 3 }, confidence := 1 }

/-- The scenario draft with buffer `"Teh cat sat."`. -/
def tehDraft : Draft :=
  { id := "d", title := "T", content := "Teh cat sat.".toList, isLocal := true }

/-- Scenario state: buffer `"Teh cat sat."` with the single spelling suggestion. -/
def tehState : AppState :=
  { grammarSuggestions := [tehSugg], hoveredSuggestionId := none, undoStack := [],
    cursorPosition := none, drafts := [tehDraft], activeDraftId := some "d",
    activeSentId := none }

/-- Scenario suggestion `[2,6)`: `"runs"` → `"run"` (delta −1). -/
def runsSugg : Suggestion :=
  { id := "g1", type := SuggestionType.grammar, original := "runs".toList,
    suggestion := "run".toList, explanation := [], source := SuggestionSource.«local»,
    priority := 2, position := { start := 2, «end» := 6 }, confidence := 1 }

/-- Scenario suggestion at `[15,18)`. -/
def areSugg : Suggestion :=
  { id := "g2", type := SuggestionType.grammar, original := "are".toList,
    suggestion := "am".toList, explanation := [], source := SuggestionSource.«local»,
    priority := 2, position := { start := 15, «end» := 18 }, confidence := 1 }

/-- Scenario draft with buffer `"I runs fast and I are happy."`. -/
def runsDraft : Draft :=
  { id := "d", title := "T", content := "I runs fast and I are happy.".toList,
    isLocal := true }

/-- Scenario state with the two suggestions at `[2,6)` and `[15,18)`. -/
def runsState : AppState :=
  { grammarSuggestions := [runsSugg, areSugg], hoveredSuggestionId := none, undoStack := [],
    cursorPosition := none, drafts := [runsDraft], activeDraftId := some "d",
    activeSentId := none }

/-- A draft whose buffer was edited to `"Txh cat sat."`, making `tehSugg` stale. -/
def staleDraft : Draft :=
  { id := "d", title := "T", content := "Txh cat sat.".toList, isLocal := true }

/-- State in which `tehSugg`'s `original` no longer matches the text at `[0,3)`. -/
def staleState : AppState :=
  { grammarSuggestions := [tehSugg], hoveredSuggestionId := none, undoStack := [],
    cursorPosition := none, drafts := [staleDraft], activeDraftId := some "d",
    activeSentId := none }

/-- An undo record belonging to draft `"x"`. -/
def wrongDocRec : UndoState :=
  { draftId := "x", previousContent := [], appliedSuggestion := dummySugg,
    previousSuggestions := [], timestamp := 0 }

/-- State whose active draft is `"d"` while the top undo record is for `"x"`. -/
def wrongDocState : AppState :=
  { grammarSuggestions := [], hoveredSuggestionId := none, undoStack := [wrongDocRec],
    cursorPosition := none,
    drafts := [{ id := "d", title := "T", content := [], isLocal := true }],
    activeDraftId := some "d", activeSentId := none }

/-- The i-th record of a full undo stack for draft `"d"`. -/
def fullStackRec (i : Nat) : UndoState :=
  { draftId := "d", previousContent := [], appliedSuggestion := dummySugg,
    previousSuggestions := [], timestamp := i }

/-- A state whose undo stack already holds 10 records. -/
def fullStackState : AppState :=
  { grammarSuggestions := [tehSugg], hoveredSuggestionId := none,
    undoStack := (List.range 10).map fullStackRec, cursorPosition := none,
    drafts := [tehDraft], activeDraftId := some "d", activeSentId := none }

/-- A suggestion at `[0,2)`, outside the changed span of `"abcdef"` → `"abXdef"`. -/
def invKeepSugg : Suggestion :=
  { dummySugg with id := "k", position := { start := 0, «end» := 2 } }

/-- A suggestion at `[2,4)`, overlapping the changed span of `"abcdef"` → `"abXdef"`. -/
def invDropSugg : Suggestion :=
  { dummySugg with id := "x", position := { start := 2, «end» := 4 } }

/-- State holding the two invalidation-scenario suggestions. -/
def invState : AppState :=
  { grammarSuggestions := [invKeepSugg, invDropSugg], hoveredSuggestionId := none,
    undoStack := [], cursorPosition := none, drafts := [], activeDraftId := none,
    activeSentId := none }

/-- A clarity suggestion live in the set before a grammar re-run. -/
def claritySugg : Suggestion :=
  { id := "c1", type := SuggestionType.clarity, original := "very good".toList,
    suggestion := "excellent".toList, explanation := [], source := SuggestionSource.«local»,
    priority := 3, position := { start := 20, «end» := 29 }, confidence := 1 }

/-- State holding only that clarity suggestion. -/
def clarityState : AppState :=
  { grammarSuggestions := [claritySugg], hoveredSuggestionId := none, undoStack := [],
    cursorPosition := none, drafts := [], activeDraftId := none, activeSentId := none }

/-! ## Helper lemmas -/

/-- Helper: a filter that kept every element kept the list. -/
theorem filter_eq_self_of_length_eq {α : Type} (p : α → Bool) (l : List α)
    (h : (l.filter p).length = l.length) : l.filter p = l := by
  induction l with
  | nil => rfl
  | cons a as ih =>
    by_cases hp : p a
    · simp only [List.filter_cons_of_pos hp, List.length_cons, Nat.add_right_cancel_iff] at h
      simp [List.filter_cons_of_pos hp, ih h]
    · rw [List.filter_cons_of_neg hp] at h
      have := List.length_filter_le p as
      simp at h
      omega

/-- Helper: the value of `applySuggestion` when lookup and re-validation succeed. -/
theorem applySuggestion_eq_of_valid (st : AppState) (sid : String) (now : Nat)
    (A : Suggestion) (did : String) (draft : Draft)
    (hA : st.grammarSuggestions.find? (fun s => s.id == sid) = some A)
    (hdid : st.activeDraftId = some did)
    (hdraft : st.drafts.find? (fun d => d.id == did) = some draft)
    (hvalid : validateSuggestion A draft.content = true) :
    applySuggestion st sid now =
      ({ st with
          drafts := updateDraft st.drafts did draft.title
            (draft.content.take A.position.start.toNat ++ A.suggestion
              ++ draft.content.drop A.position.«end».toNat)
          grammarSuggestions :=
            (st.grammarSuggestions.filter (fun s => s.id != sid)).filterMap
              (rebaseAfterApply A.position.start A.position.«end»
                ((A.suggestion.length : Int) - (A.position.«end» - A.position.start)))
          undoStack := pushUndo
            { draftId := did, previousContent := draft.content, appliedSuggestion := A,
              previousSuggestions := st.grammarSuggestions, timestamp := now } st.undoStack
          cursorPosition := some (A.position.start + (A.suggestion.length : Int)) },
        ApplyOutcome.applied) := by
  unfold applySuggestion
  simp only [hA, hdid, hdraft, hvalid]
  simp

/-- Helper: the value of `applySuggestion` when re-validation fails. -/
theorem applySuggestion_eq_of_stale (st : AppState) (sid : String) (now : Nat)
    (A : Suggestion) (did : String) (draft : Draft)
    (hA : st.grammarSuggestions.find? (fun s => s.id == sid) = some A)
    (hdid : st.activeDraftId = some did)
    (hdraft : st.drafts.find? (fun d => d.id == did) = some draft)
    (hvalid : validateSuggestion A draft.content = false) :
    applySuggestion st sid now =
      ({ st with
          grammarSuggestions := st.grammarSuggestions.filter (fun s => s.id != sid) },
        ApplyOutcome.stale) := by
  unfold applySuggestion
  simp only [hA, hdid, hdraft, hvalid]
  simp

/-- Helper: looking up a draft id after `updateDraft` finds the updated draft. -/
theorem find?_updateDraft (drafts : List Draft) (id title : String) (content : List Char) :
    (updateDraft drafts id title content).find? (fun d => d.id == id) =
      (drafts.find? (fun d => d.id == id)).map
        (fun d => { d with title := title, content := content }) := by
  induction drafts with
  | nil => rfl
  | cons d ds ih =>
    by_cases h : d.id = id
    · simp [updateDraft, List.find?, h]
    · simp only [updateDraft, List.map_cons] at ih ⊢
      rw [if_neg h]
      rw [List.find?_cons_of_neg, List.find?_cons_of_neg, ih]
      · simp [h]
      · simp [h]

/-- Helper: the rebase step never changes a suggestion's id. -/
theorem rebaseAfterApply_id {start e lengthDiff : Int} {s C : Suggestion}
    (h : rebaseAfterApply start e lengthDiff s = some C) : C.id = s.id := by
  unfold rebaseAfterApply at h
  split at h
  · cases h; rfl
  · split at h
    · cases h
    · cases h; rfl

/-- Helper: if the buffer text at the suggestion's range (JavaScript `slice`
semantics) differs from `original`, the validity re-check fails. -/
theorem validateSuggestion_eq_false_of_slice_ne (s : Suggestion) (text : List Char)
    (h : jsSlice text s.position.start s.position.«end» ≠ s.original) :
    validateSuggestion s text = false := by
  unfold validateSuggestion
  by_cases hb : s.position.start < 0 ∨ (text.length : Int) < s.position.«end»
      ∨ s.position.«end» ≤ s.position.start
  · simp [hb]
  · push_neg at hb
    obtain ⟨h0, hlen, hlt⟩ := hb
    rw [if_neg (by push_neg; exact ⟨h0, hlen, hlt⟩)]
    have hslice : (text.drop s.position.start.toNat).take
        (s.position.«end» - s.position.start).toNat =
        jsSlice text s.position.start s.position.«end» := by
      unfold jsSlice
      have e1 : jsSliceIndex text.length s.position.start = s.position.start.toNat := by
        unfold jsSliceIndex
        rw [if_neg (by omega)]
        omega
      have e2 : jsSliceIndex text.length s.position.«end» = s.position.«end».toNat := by
        unfold jsSliceIndex
        rw [if_neg (by omega)]
        omega
      rw [e1, e2, List.drop_take]
      congr 1
      omega
    rw [hslice]
    simpa using h

/-- Helper: taking 10 of an append absorbs an inner `take 10`. -/
theorem take_append_take {α : Type} (a b : List α) :
    (a ++ b.take 10).take 10 = (a ++ b).take 10 := by
  rw [List.take_append_eq_append_take, List.take_append_eq_append_take, List.take_take]
  congr 1
  congr 1
  omega

/-- Helper: folding undo-record pushes over a non-empty record list. -/
theorem foldl_pushUndo (us : List UndoState) (s0 : List UndoState) (h : us ≠ []) :
    us.foldl (fun stack u => pushUndo u stack) s0 = (us.reverse ++ s0).take 10 := by
  induction us generalizing s0 with
  | nil => exact absurd rfl h
  | cons u rest ih =>
    rcases hrest : rest with _ | ⟨v, vs⟩
    · simp [pushUndo]
    · subst hrest
      rw [List.foldl_cons]
      rw [ih (pushUndo u s0) (by simp)]
      unfold pushUndo
      rw [take_append_take ((v :: vs).reverse) (u :: s0)]
      simp

/-- Helper: the forward scan result, characterized: it is a common-prefix
length bounded by both texts, and is the largest such. -/
theorem commonPrefixLen_spec (a b : List Char) :
    commonPrefixLen a b ≤ min a.length b.length ∧
    a.take (commonPrefixLen a b) = b.take (commonPrefixLen a b) ∧
    (∀ j ≤ min a.length b.length, a.take j = b.take j → j ≤ commonPrefixLen a b) := by
  induction a generalizing b with
  | nil =>
    refine ⟨by simp [commonPrefixLen], by simp [commonPrefixLen], ?_⟩
    intro j hj _
    simpa [commonPrefixLen] using hj
  | cons x xs ih =>
    rcases b with _ | ⟨y, ys⟩
    · refine ⟨by simp [commonPrefixLen], by simp [commonPrefixLen], ?_⟩
      intro j hj _
      simpa [commonPrefixLen] using hj
    · by_cases hxy : x = y
      · subst hxy
        obtain ⟨ih1, ih2, ih3⟩ := ih ys
        refine ⟨?_, ?_, ?_⟩
        · simp only [commonPrefixLen, List.length_cons]
          simp only [if_pos trivial]
          omega
        · simp only [commonPrefixLen]
          simp only [if_pos trivial, List.take_succ_cons, ih2]
        · intro j hj htake
          rcases j with _ | j
          · exact Nat.zero_le _
          · simp only [List.take_succ_cons, List.cons.injEq] at htake
            have := ih3 j (by simp at hj; omega) htake.2
            simp only [commonPrefixLen]
            simp only [if_pos trivial]
            omega
      · refine ⟨by simp [commonPrefixLen, hxy], by simp [commonPrefixLen, hxy], ?_⟩
        intro j hj htake
        rcases j with _ | j
        · simp [commonPrefixLen, hxy]
        · simp only [List.take_succ_cons, List.cons.injEq] at htake
          exact absurd htake.1 hxy

/-- Helper: the suggestion set after `invalidateSuggestionsOnEdit`, as a
single filter over the survival condition. -/
theorem invalidate_grammarSuggestions_eq (st : AppState) (oldText newText : List Char) :
    (invalidateSuggestionsOnEdit st oldText newText).grammarSuggestions =
      st.grammarSuggestions.filter fun s =>
        decide (s.position.«end» ≤ (commonPrefixLen oldText newText : Int)
          ∨ (backwardScanEnd oldText newText (commonPrefixLen oldText newText)
              oldText.length newText.length : Int) ≤ s.position.start) := by
  unfold invalidateSuggestionsOnEdit
  by_cases h : st.grammarSuggestions = []
  · rw [if_pos h, h]
    rfl
  · rw [if_neg h]
    dsimp only
    have hpred : ∀ s : Suggestion,
        (let overlaps := !(s.position.«end» ≤ ((commonPrefixLen oldText newText : Nat) : Int)
          ∨ s.position.start ≥ ((backwardScanEnd oldText newText
              (commonPrefixLen oldText newText) oldText.length newText.length : Nat) : Int) : Bool)
         !overlaps) =
        decide (s.position.«end» ≤ (commonPrefixLen oldText newText : Int)
          ∨ (backwardScanEnd oldText newText (commonPrefixLen oldText newText)
              oldText.length newText.length : Int) ≤ s.position.start) := by
      intro s
      simp [ge_iff_le]
    split
    · next hlen =>
      conv_lhs => rw [← filter_eq_self_of_length_eq _ _ hlen]
      exact List.filter_congr fun s _ => hpred s
    · exact List.filter_congr fun s _ => hpred s

/-- Helper: the forward scan over two copies of the same text runs to its end. -/
theorem commonPrefixLen_self (t : List Char) : commonPrefixLen t t = t.length := by
  induction t with
  | nil => rfl
  | cons x xs ih =>
    simp only [commonPrefixLen]
    simp only [if_pos trivial, ih, List.length_cons]

/-- Helper: the backward scan stops immediately when `oldEnd < changeStart`. -/
theorem backwardScanEnd_of_le (a b : List Char) (cs oe ne : Nat) (h : oe ≤ cs) :
    backwardScanEnd a b cs oe ne = oe := by
  rcases oe with _ | oe1
  · rcases ne with _ | ne1 <;> rfl
  · rcases ne with _ | ne1
    · rfl
    · unfold backwardScanEnd
      rw [if_neg (by omega)]

/-- Helper: the backward scan stops immediately when the new text is exhausted. -/
theorem backwardScanEnd_right_zero (a b : List Char) (cs oe : Nat) :
    backwardScanEnd a b cs oe 0 = oe := by
  rcases oe with _ | oe1 <;> rfl

/-- Helper: every suggestion built from a spelling batch has kind `spelling`. -/
theorem mkSpellingSuggestions_type (errors : List SpellCheckError) (now : Nat) :
    ∀ s ∈ mkSpellingSuggestions errors now, s.type = SuggestionType.spelling := by
  intro s hs
  unfold mkSpellingSuggestions at hs
  rw [List.mem_map] at hs
  obtain ⟨p, _, hp⟩ := hs
  rw [← hp]

/-- Helper: every suggestion built from a clarity batch has kind `clarity`. -/
theorem mkClaritySuggestions_type (results : List ClarityCheckResult) (now : Nat) :
    ∀ s ∈ mkClaritySuggestions results now, s.type = SuggestionType.clarity := by
  intro s hs
  unfold mkClaritySuggestions at hs
  rw [List.mem_map] at hs
  obtain ⟨p, _, hp⟩ := hs
  rw [← hp]

/-- Helper: a grammar batch never contains spelling suggestions. -/
theorem mkGrammarSuggestions_type (results : List GrammarCheckResult) (now : Nat) :
    ∀ s ∈ mkGrammarSuggestions results now, s.type ≠ SuggestionType.spelling := by
  intro s hs
  unfold mkGrammarSuggestions at hs
  rw [List.mem_map] at hs
  obtain ⟨p, _, hp⟩ := hs
  rw [← hp]
  rcases p.2.type <;> simp [GrammarResultType.toSuggestionType]

/-! ## Claim theorems -/

/-- Claim C1 (apply rebasing): after a successful `applySuggestion` on a
suggestion `A` with `lengthDelta d = len(replacement) - (end - start)`,
every other suggestion `B` starting at or after `A`'s end survives with
both bounds shifted by exactly `d`; every `B` overlapping `A`'s original
range is removed; every `B` entirely before `A` is kept unchanged; and `A`
itself is removed from the set. -/
theorem applySuggestion_rebasing (st : AppState) (sid : String) (now : Nat)
    (A : Suggestion) (did : String) (draft : Draft)
    (hA : st.grammarSuggestions.find? (fun s => s.id == sid) = some A)
    (hdid : st.activeDraftId = some did)
    (hdraft : st.drafts.find? (fun d => d.id == did) = some draft)
    (hvalid : validateSuggestion A draft.content = true)
    (hnodup : (st.grammarSuggestions.map Suggestion.id).Nodup) :
    (applySuggestion st sid now).2 = ApplyOutcome.applied ∧
    (∀ C ∈ (applySuggestion st sid now).1.grammarSuggestions, C.id ≠ sid) ∧
    (∀ B ∈ st.grammarSuggestions, B.id ≠ sid →
      (A.position.«end» ≤ B.position.start →
        { B with position :=
            { start := B.position.start
                + ((A.suggestion.length : Int) - (A.position.«end» - A.position.start)),
              «end» := B.position.«end»
                + ((A.suggestion.length : Int) - (A.position.«end» - A.position.start)) } }
          ∈ (applySuggestion st sid now).1.grammarSuggestions) ∧
      (A.position.start < B.position.«end» → B.position.start < A.position.«end» →
        ∀ C ∈ (applySuggestion st sid now).1.grammarSuggestions, C.id ≠ B.id) ∧
      (B.position.start < A.position.«end» → B.position.«end» ≤ A.position.start →
        B ∈ (applySuggestion st sid now).1.grammarSuggestions)) := by
  rw [applySuggestion_eq_of_valid st sid now A did draft hA hdid hdraft hvalid]
  refine ⟨rfl, ?_, ?_⟩
  · intro C hC
    simp only at hC
    rw [List.mem_filterMap] at hC
    obtain ⟨B, hBmem, hBeq⟩ := hC
    rw [List.mem_filter] at hBmem
    have hid := rebaseAfterApply_id hBeq
    rw [hid]
    simpa using hBmem.2
  · intro B hB hBne
    refine ⟨?_, ?_, ?_⟩
    · intro hge
      simp only
      rw [List.mem_filterMap]
      refine ⟨B, List.mem_filter.mpr ⟨hB, by simpa using hBne⟩, ?_⟩
      unfold rebaseAfterApply
      rw [if_pos hge]
    · intro hov1 hov2 C hC hCid
      simp only at hC
      rw [List.mem_filterMap] at hC
      obtain ⟨B', hB'mem, hB'eq⟩ := hC
      rw [List.mem_filter] at hB'mem
      have hid := rebaseAfterApply_id hB'eq
      have hBB' : B' = B :=
        List.inj_on_of_nodup_map hnodup hB'mem.1 hB (by rw [← hid, hCid])
      subst hBB'
      unfold rebaseAfterApply at hB'eq
      rw [if_neg (by omega), if_pos ⟨hov1, hov2⟩] at hB'eq
      cases hB'eq
    · intro hlt hle
      simp only
      rw [List.mem_filterMap]
      refine ⟨B, List.mem_filter.mpr ⟨hB, by simpa using hBne⟩, ?_⟩
      unfold rebaseAfterApply
      rw [if_neg (by omega), if_neg (by omega)]

/-- Witness for C1: in the spec's scenario (`"I runs fast and I are happy."`,
suggestions at `[2,6)` and `[15,18)`, replacement `"run"` of delta −1), the
apply succeeds and the second suggestion's range becomes `[14,17)`. -/
theorem applySuggestion_rebasing_witness :
    (applySuggestion runsState "g1" 7).2 = ApplyOutcome.applied ∧
    { areSugg with position := { start := 14, «end» := 17 } }
      ∈ (applySuggestion runsState "g1" 7).1.grammarSuggestions := by
  have h := applySuggestion_rebasing runsState "g1" 7 runsSugg "d" runsDraft
    (by decide) rfl (by decide) (by decide) (by decide)
  refine ⟨h.1, ?_⟩
  have h2 := ((h.2.2 areSugg (by decide) (by decide)).1 (by decide))
  have heq : { areSugg with position :=
      { start := areSugg.position.start
          + ((runsSugg.suggestion.length : Int)
            - (runsSugg.position.«end» - runsSugg.position.start)),
        «end» := areSugg.position.«end»
          + ((runsSugg.suggestion.length : Int)
            - (runsSugg.position.«end» - runsSugg.position.start)) } } =
      { areSugg with position := ({ start := 14, «end» := 17 } : Pos) } := by decide
  rw [heq] at h2
  exact h2

/-- Claim C2 (apply validity precondition): applying a suggestion whose
`original` no longer equals the buffer text at its range signals `Stale`,
never mutates the buffer (or the undo stack or cursor), and removes exactly
that suggestion from the set, leaving every other suggestion untouched. -/
theorem applySuggestion_stale_noop (st : AppState) (sid : String) (now : Nat)
    (A : Suggestion) (did : String) (draft : Draft)
    (hA : st.grammarSuggestions.find? (fun s => s.id == sid) = some A)
    (hdid : st.activeDraftId = some did)
    (hdraft : st.drafts.find? (fun d => d.id == did) = some draft)
    (hstale : jsSlice draft.content A.position.start A.position.«end» ≠ A.original) :
    (applySuggestion st sid now).2 = ApplyOutcome.stale ∧
    (applySuggestion st sid now).1.drafts = st.drafts ∧
    (applySuggestion st sid now).1.undoStack = st.undoStack ∧
    (applySuggestion st sid now).1.cursorPosition = st.cursorPosition ∧
    (applySuggestion st sid now).1.grammarSuggestions =
      st.grammarSuggestions.filter (fun s => s.id != sid) ∧
    A ∉ (applySuggestion st sid now).1.grammarSuggestions ∧
    (∀ B ∈ st.grammarSuggestions, B.id ≠ sid →
      B ∈ (applySuggestion st sid now).1.grammarSuggestions) ∧
    (∀ C ∈ (applySuggestion st sid now).1.grammarSuggestions,
      C ∈ st.grammarSuggestions) := by
  rw [applySuggestion_eq_of_stale st sid now A did draft hA hdid hdraft
    (validateSuggestion_eq_false_of_slice_ne A draft.content hstale)]
  have hAid : A.id = sid := by
    have := List.find?_some hA
    simpa using this
  refine ⟨rfl, rfl, rfl, rfl, rfl, ?_, ?_, ?_⟩
  · intro hmem
    simp only at hmem
    rw [List.mem_filter] at hmem
    simp [hAid] at hmem
  · intro B hB hBne
    simp only
    exact List.mem_filter.mpr ⟨hB, by simpa using hBne⟩
  · intro C hC
    simp only at hC
    exact (List.mem_filter.mp hC).1

/-- Witness for C2: with the buffer edited to `"Txh cat sat."`, applying the
`"Teh"` suggestion reports `Stale`, leaves the drafts unchanged, and empties
the one-element suggestion set. -/
theorem applySuggestion_stale_noop_witness :
    (applySuggestion staleState "s1" 7).2 = ApplyOutcome.stale ∧
    (applySuggestion staleState "s1" 7).1.drafts = staleState.drafts ∧
    (applySuggestion staleState "s1" 7).1.grammarSuggestions = [] := by
  have h := applySuggestion_stale_noop staleState "s1" 7 tehSugg "d" staleDraft
    (by decide) rfl (by decide) (by decide)
  refine ⟨h.1, h.2.1, ?_⟩
  rw [h.2.2.2.2.1]
  decide

/-- Claim C3 (invalidation overlap): `invalidateSuggestionsOnEdit` computes
`changeStart` as the length of the longest common prefix of the two texts,
`changeEnd` as the exclusive end of the backward common-suffix scan bounded
below by `changeStart`, and a suggestion `[s,e)` survives — verbatim, in
order — iff `e ≤ changeStart ∨ s ≥ changeEnd`. -/
theorem invalidate_overlap_spec (st : AppState) (oldText newText : List Char) :
    commonPrefixLen oldText newText ≤ min oldText.length newText.length ∧
    oldText.take (commonPrefixLen oldText newText) =
      newText.take (commonPrefixLen oldText newText) ∧
    (∀ j ≤ min oldText.length newText.length,
      oldText.take j = newText.take j → j ≤ commonPrefixLen oldText newText) ∧
    (invalidateSuggestionsOnEdit st oldText newText).grammarSuggestions =
      st.grammarSuggestions.filter fun s =>
        decide (s.position.«end» ≤ (commonPrefixLen oldText newText : Int)
          ∨ (backwardScanEnd oldText newText (commonPrefixLen oldText newText)
              oldText.length newText.length : Int) ≤ s.position.start) := by
  obtain ⟨h1, h2, h3⟩ := commonPrefixLen_spec oldText newText
  exact ⟨h1, h2, h3, invalidate_grammarSuggestions_eq st oldText newText⟩

/-- Witness for C3: editing `"abcdef"` to `"abXdef"` (changed span `[2,3)`)
keeps the suggestion at `[0,2)` and drops the one at `[2,4)`. -/
theorem invalidate_overlap_spec_witness :
    2 ≤ commonPrefixLen "abcdef".toList "abXdef".toList ∧
    (invalidateSuggestionsOnEdit invState "abcdef".toList
        "abXdef".toList).grammarSuggestions = [invKeepSugg] := by
  have h := invalidate_overlap_spec invState "abcdef".toList "abXdef".toList
  refine ⟨h.2.2.1 2 (by decide) (by decide), ?_⟩
  rw [h.2.2.2]
  decide

/-- Counterexample for C4: with 10 records already on the undo stack, the
push inside `applySuggestion` evicts the oldest record, so undoing right
after the apply does not leave the undo stack as it was before the apply. -/
theorem undo_after_apply_not_exact_restore :
    (applySuggestion fullStackState "s1" 99).2 = ApplyOutcome.applied ∧
    (undoLastSuggestion (applySuggestion fullStackState "s1" 99).1).2 =
      UndoOutcome.undone ∧
    (undoLastSuggestion (applySuggestion fullStackState "s1" 99).1).1.undoStack ≠
      fullStackState.undoStack := by
  decide

/-- Claim C4, amended (undo is exact restore of buffer and suggestions):
undo immediately after a successful apply restores the buffer content and
the suggestion set to their exact pre-apply values (the applied suggestion
included) and discards the popped record, leaving the rest of the undo
stack equal to the pre-apply stack truncated to its 9 most recent records
— identical to the pre-apply stack whenever it held at most 9. -/
theorem undo_after_apply_restores (st : AppState) (sid : String) (now : Nat)
    (A : Suggestion) (did : String) (draft : Draft)
    (hA : st.grammarSuggestions.find? (fun s => s.id == sid) = some A)
    (hdid : st.activeDraftId = some did)
    (hdraft : st.drafts.find? (fun d => d.id == did) = some draft)
    (hvalid : validateSuggestion A draft.content = true) :
    (undoLastSuggestion (applySuggestion st sid now).1).2 = UndoOutcome.undone ∧
    (undoLastSuggestion (applySuggestion st sid now).1).1.grammarSuggestions =
      st.grammarSuggestions ∧
    ((undoLastSuggestion (applySuggestion st sid now).1).1.drafts.find?
        (fun d => d.id == did)).map Draft.content = some draft.content ∧
    (undoLastSuggestion (applySuggestion st sid now).1).1.undoStack =
      st.undoStack.take 9 := by
  rw [applySuggestion_eq_of_valid st sid now A did draft hA hdid hdraft hvalid]
  unfold undoLastSuggestion
  simp only [hdid, pushUndo, List.take_succ_cons]
  rw [if_neg (by simp)]
  refine ⟨rfl, rfl, ?_, rfl⟩
  rw [find?_updateDraft, find?_updateDraft, hdraft]
  rfl

/-- Witness for C4's amended claim: apply then undo on the `"Teh cat sat."`
scenario restores the suggestion list, the buffer, and the (empty) stack. -/
theorem undo_after_apply_restores_witness :
    (undoLastSuggestion (applySuggestion tehState "s1" 7).1).2 = UndoOutcome.undone ∧
    (undoLastSuggestion (applySuggestion tehState "s1" 7).1).1.grammarSuggestions =
      [tehSugg] ∧
    ((undoLastSuggestion (applySuggestion tehState "s1" 7).1).1.drafts.find?
        (fun d => d.id == "d")).map Draft.content = some "Teh cat sat.".toList ∧
    (undoLastSuggestion (applySuggestion tehState "s1" 7).1).1.undoStack = [] := by
  have h := undo_after_apply_restores tehState "s1" 7 tehSugg "d" tehDraft
    (by decide) rfl (by decide) (by decide)
  exact ⟨h.1, h.2.1, h.2.2.1, h.2.2.2⟩

/-- Claim C5 (undo history bound): the undo history is a capacity-10 stack,
most-recent-first.  Folding more than 10 pushes leaves exactly the 10 most
recent records in most-recent-first order (oldest evicted); a successful
apply pushes exactly one record through that push operation; and no
operation grows the stack beyond 10. -/
theorem undo_history_bound :
    (∀ (us s0 : List UndoState), 10 ≤ us.length →
      us.foldl (fun stack u => pushUndo u stack) s0 = us.reverse.take 10) ∧
    (∀ (u : UndoState) (stack : List UndoState), (pushUndo u stack).length ≤ 10) ∧
    (∀ (st : AppState) (sid : String) (now : Nat) (A : Suggestion) (did : String)
        (draft : Draft),
      st.grammarSuggestions.find? (fun s => s.id == sid) = some A →
      st.activeDraftId = some did →
      st.drafts.find? (fun d => d.id == did) = some draft →
      validateSuggestion A draft.content = true →
      (applySuggestion st sid now).1.undoStack =
        pushUndo { draftId := did, previousContent := draft.content,
                   appliedSuggestion := A, previousSuggestions := st.grammarSuggestions,
                   timestamp := now } st.undoStack) ∧
    (∀ (st : AppState) (sid : String) (now : Nat), st.undoStack.length ≤ 10 →
      (applySuggestion st sid now).1.undoStack.length ≤ 10) ∧
    (∀ st : AppState, st.undoStack.length ≤ 10 →
      (undoLastSuggestion st).1.undoStack.length ≤ 10) ∧
    (∀ (st : AppState) (oldText newText : List Char),
      (invalidateSuggestionsOnEdit st oldText newText).undoStack = st.undoStack) := by
  have hlen : ∀ (u : UndoState) (stack : List UndoState), (pushUndo u stack).length ≤ 10 := by
    intro u stack
    unfold pushUndo
    rw [List.length_take]
    omega
  refine ⟨?_, hlen, ?_, ?_, ?_, ?_⟩
  · intro us s0 h
    rw [foldl_pushUndo us s0 (by intro hnil; rw [hnil] at h; simp at h)]
    rw [List.take_append_of_le_length (by simpa using h)]
  · intro st sid now A did draft hA hdid hdraft hvalid
    rw [applySuggestion_eq_of_valid st sid now A did draft hA hdid hdraft hvalid]
  · intro st sid now hb
    unfold applySuggestion
    rcases hA : st.grammarSuggestions.find? (fun s => s.id == sid) with _ | A
    · simp only [hA]
      simpa using hb
    · rcases hdid : st.activeDraftId with _ | did
      · simp only [hA, hdid]
        simpa using hb
      · rcases hdraft : st.drafts.find? (fun d => d.id == did) with _ | draft
        · simp only [hA, hdid, hdraft]
          simpa using hb
        · by_cases hv : validateSuggestion A draft.content
          · simp only [hA, hdid, hdraft, hv]
            simpa using hlen _ _
          · simp only [Bool.not_eq_true] at hv
            simp only [hA, hdid, hdraft, hv]
            simpa using hb
  · intro st hb
    unfold undoLastSuggestion
    rcases hdid : st.activeDraftId with _ | did
    · simp only [hdid]
      simpa using hb
    · rcases hstack : st.undoStack with _ | ⟨u, rest⟩
      · simp only [hdid, hstack]
        simp
      · by_cases hne : u.draftId ≠ did
        · simp only [hdid, hstack, if_pos hne]
          rw [hstack] at hb
          simpa using hb
        · simp only [hdid, hstack, if_neg hne]
          rw [hstack] at hb
          simp at hb ⊢
          omega
  · intro st oldText newText
    unfold invalidateSuggestionsOnEdit
    by_cases h : st.grammarSuggestions = []
    · rw [if_pos h]
    · rw [if_neg h]
      dsimp only
      split <;> rfl

/-- Witness for C5: folding 11 pushes onto an empty stack leaves exactly the
10 most recent records, most-recent-first. -/
theorem undo_history_bound_witness :
    ((List.range 11).map fullStackRec).foldl (fun stack u => pushUndo u stack) [] =
      ((List.range 11).map fullStackRec).reverse.take 10 := by
  exact undo_history_bound.1 ((List.range 11).map fullStackRec) [] (by decide)

/-- Counterexample for C6: a grammar re-run (`checkGrammar`, here with an
empty result batch) removes a live clarity suggestion, although clarity
differs from the batch's kind. -/
theorem checkGrammar_removes_clarity :
    claritySugg ∈ clarityState.grammarSuggestions ∧
    claritySugg.type ≠ SuggestionType.grammar ∧
    claritySugg ∉ (checkGrammar clarityState [] 0).grammarSuggestions := by
  decide

/-- Claim C6, amended (merge isolation): a spelling re-run and a clarity
re-run leave suggestions of every other kind unchanged; a grammar re-run
leaves spelling suggestions unchanged (given that spelling suggestions
carry source `local`, as all built by `addSpellingSuggestions` do) but
replaces the clarity slice along with the grammar slice: afterwards the
clarity slice is exactly the clarity portion of the incoming batch. -/
theorem merge_isolation_amended :
    (∀ (st : AppState) (errors : List SpellCheckError) (now : Nat) (k : SuggestionType),
      k ≠ SuggestionType.spelling →
      (addSpellingSuggestions st errors now).grammarSuggestions.filter
          (fun s => s.type == k)
        = st.grammarSuggestions.filter (fun s => s.type == k)) ∧
    (∀ (st : AppState) (results : List ClarityCheckResult) (now : Nat) (k : SuggestionType),
      k ≠ SuggestionType.clarity →
      (addClaritySuggestions (clearClaritySuggestions st) results now).grammarSuggestions.filter
          (fun s => s.type == k)
        = st.grammarSuggestions.filter (fun s => s.type == k)) ∧
    (∀ (st : AppState) (results : List GrammarCheckResult) (now : Nat),
      (∀ s ∈ st.grammarSuggestions, s.type = SuggestionType.spelling →
        s.source = SuggestionSource.«local») →
      (checkGrammar st results now).grammarSuggestions.filter
          (fun s => s.type == SuggestionType.spelling)
        = st.grammarSuggestions.filter (fun s => s.type == SuggestionType.spelling)) ∧
    (∀ (st : AppState) (results : List GrammarCheckResult) (now : Nat),
      (checkGrammar st results now).grammarSuggestions.filter
          (fun s => s.type == SuggestionType.clarity)
        = (mkGrammarSuggestions results now).filter
            (fun s => s.type == SuggestionType.clarity)) := by
  refine ⟨?_, ?_, ?_, ?_⟩
  · intro st errors now k hk
    unfold addSpellingSuggestions
    dsimp only
    rw [List.filter_append, List.filter_filter]
    have h1 : (mkSpellingSuggestions errors now).filter (fun s => s.type == k) = [] := by
      rw [List.filter_eq_nil_iff]
      intro s hs
      have := mkSpellingSuggestions_type errors now s hs
      simp [this, Ne.symm hk]
    rw [h1, List.append_nil]
    apply List.filter_congr
    intro s _
    by_cases ht : s.type = k
    · simp [ht, hk]
    · simp [ht]
  · intro st results now k hk
    unfold addClaritySuggestions clearClaritySuggestions
    dsimp only
    rw [List.filter_append, List.filter_filter]
    have h1 : (mkClaritySuggestions results now).filter (fun s => s.type == k) = [] := by
      rw [List.filter_eq_nil_iff]
      intro s hs
      have := mkClaritySuggestions_type results now s hs
      simp [this, Ne.symm hk]
    rw [h1, List.append_nil]
    apply List.filter_congr
    intro s _
    by_cases ht : s.type = k
    · simp [ht, hk]
    · simp [ht]
  · intro st results now hloc
    unfold checkGrammar
    dsimp only
    rw [List.filter_append, List.filter_filter]
    have h1 : (mkGrammarSuggestions results now).filter
        (fun s => s.type == SuggestionType.spelling) = [] := by
      rw [List.filter_eq_nil_iff]
      intro s hs
      have := mkGrammarSuggestions_type results now s hs
      simp [this]
    rw [h1, List.append_nil]
    apply List.filter_congr
    intro s hs
    by_cases ht : s.type = SuggestionType.spelling
    · simp [ht, hloc s hs ht]
    · simp [ht]
  · intro st results now
    unfold checkGrammar
    dsimp only
    rw [List.filter_append, List.filter_filter]
    have h1 : st.grammarSuggestions.filter
        (fun s => (s.type == SuggestionType.clarity)
          && (s.source == SuggestionSource.«local» && (s.type == SuggestionType.spelling)))
        = [] := by
      rw [List.filter_eq_nil_iff]
      intro s _
      by_cases ht : s.type = SuggestionType.clarity
      · simp [ht]
      · simp [ht]
    rw [h1, List.nil_append]

/-- Witness for C6's amended claim: against the clarity-only state, a
spelling re-run keeps the clarity slice and a grammar re-run keeps the
(empty) spelling slice. -/
theorem merge_isolation_amended_witness :
    (addSpellingSuggestions clarityState [] 0).grammarSuggestions.filter
        (fun s => s.type == SuggestionType.clarity)
      = clarityState.grammarSuggestions.filter (fun s => s.type == SuggestionType.clarity) ∧
    (checkGrammar clarityState [] 0).grammarSuggestions.filter
        (fun s => s.type == SuggestionType.spelling)
      = clarityState.grammarSuggestions.filter (fun s => s.type == SuggestionType.spelling) := by
  exact ⟨merge_isolation_amended.1 clarityState [] 0 SuggestionType.clarity (by decide),
         merge_isolation_amended.2.2.1 clarityState [] 0 (by decide)⟩

/-- Claim C7 (inapplicable undo is a no-op): an undo request with an empty
stack, no active document, or a top record for another document leaves the
entire state — the mismatching top record included — unchanged, reporting
the failure only through the returned outcome (the embedding is total:
nothing is thrown); and `canUndo` is true exactly when the stack is
non-empty and its top record's draft id equals the active draft's. -/
theorem undo_inapplicable_noop (st : AppState) :
    (st.activeDraftId = none ∨ st.undoStack = [] → (undoLastSuggestion st).1 = st) ∧
    (∀ (u : UndoState) (rest : List UndoState) (did : String),
      st.undoStack = u :: rest → st.activeDraftId = some did → u.draftId ≠ did →
        (undoLastSuggestion st).1 = st ∧
        (undoLastSuggestion st).2 = UndoOutcome.wrongDocument) ∧
    (canUndo st = true ↔
      ∃ (u : UndoState) (rest : List UndoState),
        st.undoStack = u :: rest ∧ st.activeDraftId = some u.draftId) := by
  refine ⟨?_, ?_, ?_⟩
  · intro h
    rcases h with h | h
    · unfold undoLastSuggestion
      rw [h]
    · unfold undoLastSuggestion
      rw [h]
      rcases hact : st.activeDraftId with _ | did <;> rfl
  · intro u rest did hstack hact hne
    unfold undoLastSuggestion
    rw [hstack, hact]
    simp [if_pos hne]
  · unfold canUndo
    rcases hstack : st.undoStack with _ | ⟨u, rest⟩
    · simp
    · rcases hact : st.activeDraftId with _ | did
      · simp
      · constructor
        · intro h
          refine ⟨u, rest, rfl, ?_⟩
          simp only [beq_iff_eq] at h
          rw [h]
        · rintro ⟨u', rest', heq, hdid⟩
          cases heq
          simp only [Option.some.injEq] at hdid
          simp [hdid]

/-- Witness for C7: with draft `"d"` active and the top record belonging to
draft `"x"`, undo changes nothing, reports `WrongDocument`, and `canUndo`
is false. -/
theorem undo_inapplicable_noop_witness :
    (undoLastSuggestion wrongDocState).1 = wrongDocState ∧
    (undoLastSuggestion wrongDocState).2 = UndoOutcome.wrongDocument ∧
    canUndo wrongDocState = false := by
  have h := undo_inapplicable_noop wrongDocState
  have h2 := h.2.1 wrongDocRec [] "d" rfl rfl (by decide)
  refine ⟨h2.1, h2.2, ?_⟩
  have h3 := h.2.2
  rcases hc : canUndo wrongDocState
  · rfl
  · obtain ⟨u, rest, hstack, hact⟩ := h3.mp hc
    cases hstack
    exact absurd hact (by decide)

/-- Claim C8 (apply splices and reports the cursor): a successful apply of a
suggestion with range `[start, end)` and replacement `r` makes the active
draft's buffer `buffer[:start] ++ r ++ buffer[end:]` and reports cursor
position `start + len r`. -/
theorem applySuggestion_buffer_cursor (st : AppState) (sid : String) (now : Nat)
    (A : Suggestion) (did : String) (draft : Draft)
    (hA : st.grammarSuggestions.find? (fun s => s.id == sid) = some A)
    (hdid : st.activeDraftId = some did)
    (hdraft : st.drafts.find? (fun d => d.id == did) = some draft)
    (hvalid : validateSuggestion A draft.content = true) :
    (applySuggestion st sid now).2 = ApplyOutcome.applied ∧
    ((applySuggestion st sid now).1.drafts.find? (fun d => d.id == did)).map Draft.content =
      some (draft.content.take A.position.start.toNat ++ A.suggestion
        ++ draft.content.drop A.position.«end».toNat) ∧
    (applySuggestion st sid now).1.cursorPosition
      = some (A.position.start + (A.suggestion.length : Int)) := by
  rw [applySuggestion_eq_of_valid st sid now A did draft hA hdid hdraft hvalid]
  refine ⟨rfl, ?_, rfl⟩
  rw [find?_updateDraft, hdraft]
  rfl

/-- Witness for C8: the spec's scenario — applying
`{original: "Teh", replacement: "The", range: [0,3)}` to `"Teh cat sat."`
yields `"The cat sat."` with cursor hint 3. -/
theorem applySuggestion_buffer_cursor_witness :
    (applySuggestion tehState "s1" 7).2 = ApplyOutcome.applied ∧
    ((applySuggestion tehState "s1" 7).1.drafts.find? (fun d => d.id == "d")).map
        Draft.content = some "The cat sat.".toList ∧
    (applySuggestion tehState "s1" 7).1.cursorPosition = some 3 := by
  have h := applySuggestion_buffer_cursor tehState "s1" 7 tehSugg "d" tehDraft
    (by decide) rfl (by decide) (by decide)
  refine ⟨h.1, ?_, ?_⟩
  · rw [h.2.1]; decide
  · rw [h.2.2]; rfl

/-- Claim C9 (invalidation edge cases): an empty suggestion set stays empty;
identical old/new text removes nothing (for suggestions within the text's
bounds — the data model keeps live ranges in bounds); an empty new text
makes the changed span the whole old text, so exactly the suggestions
overlapping no part of it survive; an empty old text makes the changed span
the empty span `[0,0)` of the old text, removing nothing (for the data
model's non-negative starts). -/
theorem invalidate_edge_cases :
    (∀ (st : AppState) (oldText newText : List Char), st.grammarSuggestions = [] →
      (invalidateSuggestionsOnEdit st oldText newText).grammarSuggestions = []) ∧
    (∀ (st : AppState) (t : List Char),
      (∀ s ∈ st.grammarSuggestions, s.position.«end» ≤ (t.length : Int)) →
      invalidateSuggestionsOnEdit st t t = st) ∧
    (∀ (st : AppState) (oldText : List Char),
      commonPrefixLen oldText [] = 0 ∧
      backwardScanEnd oldText [] (commonPrefixLen oldText []) oldText.length 0 =
        oldText.length ∧
      (invalidateSuggestionsOnEdit st oldText []).grammarSuggestions =
        st.grammarSuggestions.filter fun s =>
          decide (s.position.«end» ≤ (0 : Int)
            ∨ (oldText.length : Int) ≤ s.position.start)) ∧
    (∀ (st : AppState) (newText : List Char),
      commonPrefixLen [] newText = 0 ∧
      backwardScanEnd [] newText (commonPrefixLen [] newText) 0 newText.length = 0 ∧
      ((∀ s ∈ st.grammarSuggestions, 0 ≤ s.position.start) →
        invalidateSuggestionsOnEdit st [] newText = st)) := by
  have hforwardnil : ∀ oldText : List Char, commonPrefixLen oldText [] = 0 := by
    intro oldText
    rcases oldText with _ | ⟨x, xs⟩ <;> rfl
  have hself : ∀ (st : AppState) (oldText newText : List Char),
      (∀ s ∈ st.grammarSuggestions,
        (decide (s.position.«end» ≤ (commonPrefixLen oldText newText : Int)
          ∨ (backwardScanEnd oldText newText (commonPrefixLen oldText newText)
              oldText.length newText.length : Int) ≤ s.position.start)) = true) →
      invalidateSuggestionsOnEdit st oldText newText = st := by
    intro st oldText newText hall
    unfold invalidateSuggestionsOnEdit
    by_cases h : st.grammarSuggestions = []
    · rw [if_pos h]
    · rw [if_neg h]
      dsimp only
      rw [if_pos ?_]
      rw [List.filter_congr (fun s hs => ?_), List.filter_eq_self.mpr hall]
      simp [ge_iff_le]
  refine ⟨?_, ?_, ?_, ?_⟩
  · intro st oldText newText h
    rw [invalidate_grammarSuggestions_eq, h]
    rfl
  · intro st t hb
    apply hself
    intro s hs
    rw [commonPrefixLen_self]
    simp only [decide_eq_true_eq]
    exact Or.inl (hb s hs)
  · intro st oldText
    refine ⟨hforwardnil oldText, ?_, ?_⟩
    · rw [backwardScanEnd_right_zero]
    · rw [invalidate_grammarSuggestions_eq]
      rw [List.length_nil]
      rw [hforwardnil oldText, backwardScanEnd_right_zero]
      simp
  · intro st newText
    refine ⟨rfl, ?_, ?_⟩
    · rw [backwardScanEnd_of_le]
      omega
    · intro hpos
      apply hself
      intro s hs
      have h1 : commonPrefixLen [] newText = 0 := rfl
      have h2 : backwardScanEnd [] newText 0 0 newText.length = 0 :=
        backwardScanEnd_of_le _ _ _ _ _ (Nat.le_refl 0)
      simp only [h1, h2, Nat.cast_zero, decide_eq_true_eq]
      exact Or.inr (hpos s hs)

/-- Witness for C9: an identical edit of `"abcdef"` removes nothing from the
two-suggestion state, and an edit to the empty text removes everything. -/
theorem invalidate_edge_cases_witness :
    invalidateSuggestionsOnEdit invState "abcdef".toList "abcdef".toList = invState ∧
    (invalidateSuggestionsOnEdit invState "abcdef".toList []).grammarSuggestions = [] := by
  constructor
  · exact invalidate_edge_cases.2.1 invState "abcdef".toList (by decide)
  · rw [(invalidate_edge_cases.2.2.1 invState "abcdef".toList).2.2]
    decide

/-- Claim C10 (document switching): `setActiveDraft` removes only the
clarity suggestions — every spelling and grammar suggestion survives
unchanged across the switch — whereas `setActiveSent` clears the whole
suggestion set. -/
theorem setActive_suggestion_effects (st : AppState) (id1 id2 : String) :
    (setActiveDraft st id1).grammarSuggestions =
      st.grammarSuggestions.filter (fun s => s.type != SuggestionType.clarity) ∧
    (∀ s ∈ st.grammarSuggestions,
      s.type = SuggestionType.spelling ∨ s.type = SuggestionType.grammar →
        s ∈ (setActiveDraft st id1).grammarSuggestions) ∧
    (setActiveSent st id2).grammarSuggestions = [] := by
  refine ⟨rfl, ?_, rfl⟩
  intro s hs ht
  unfold setActiveDraft
  dsimp only
  rw [List.mem_filter]
  refine ⟨hs, ?_⟩
  rcases ht with ht | ht <;> simp [ht]

/-- Witness for C10: switching drafts drops the clarity-only set to empty
but keeps a spelling suggestion; switching to a sent message clears all. -/
theorem setActive_suggestion_effects_witness :
    (setActiveDraft clarityState "d2").grammarSuggestions = [] ∧
    tehSugg ∈ (setActiveDraft tehState "d2").grammarSuggestions ∧
    (setActiveSent tehState "m1").grammarSuggestions = [] := by
  refine ⟨?_, ?_, (setActive_suggestion_effects tehState "d2" "m1").2.2⟩
  · rw [(setActive_suggestion_effects clarityState "d2" "m1").1]
    decide
  · exact (setActive_suggestion_effects tehState "d2" "m1").2.1 tehSugg (by decide)
      (Or.inl rfl)
